import Mathlib

/-!
Verification of the obsidian-scratchpad plugin (enhanced variant plus the
original canvas variant) against its natural-language specification.

The TypeScript sources are shallowly embedded: JS strings are modelled as
`List Char`, JS numbers holding timestamps, lengths and limits as `Nat`,
array indices that may be -1 as `Int`.  Stateful methods become pure
functions from the relevant state to the new state; disk writes are made
explicit in the result type (an outcome constructor that carries the
written blob, or one that carries none).  `Date.now()` and `generateId()`
are nondeterministic in the source and become explicit parameters.
-/

/-- Whitespace recognised by JS `String.prototype.trim` (the ASCII part,
which is all the sources ever produce): space, tab, newline, carriage
return, vertical tab, form feed. -/
def isJsSpace (c : Char) : Bool :=
  c = ' ' || c = '\t' || c = '\n' || c = '\r' || c = '\x0b' || c = '\x0c'

/-- JS `content.trim()`: drop whitespace from both ends. -/
def jsTrim (s : List Char) : List Char :=
  ((s.dropWhile isJsSpace).reverse.dropWhile isJsSpace).reverse

/-- One character of JS `replace(/\n/g, ' ')`: a newline becomes a space. -/
def nlToSpace (c : Char) : Char :=
  if c = '\n' then ' ' else c

/-- The literal placeholder string `"Empty note"`. -/
def emptyNotePreview : List Char := "Empty note".data

/-- From `src/main.ts`, `generatePreview`:
`return content.trim().slice(0, 100).replace(/\n/g, ' ') || "Empty note";`.
The `||` falls back to the placeholder exactly when the left operand is the
empty string (the only falsy string). -/
def generatePreview (content : List Char) : List Char :=
  let p := ((jsTrim content).take 100).map nlToSpace
  if p.isEmpty then emptyNotePreview else p

theorem take_eq_nil_iff_of_pos {α : Type} (l : List α) {n : Nat} (hn : 0 < n) :
    l.take n = [] ↔ l = [] := by
  cases l with
  | nil => simp
  | cons a t =>
    cases n with
    | zero => exact absurd hn (by simp)
    | succ m => simp

/-- C1: `generatePreview(content)` returns the first 100 characters of the
trimmed content with each newline replaced by a single space, and the
literal placeholder `"Empty note"` exactly when the trimmed content is
empty; the result is never longer than 100 characters in the non-empty
case. -/
theorem generatePreview_correct (content : List Char) :
    generatePreview content =
      (if jsTrim content = [] then emptyNotePreview
       else ((jsTrim content).map nlToSpace).take 100) ∧
    (jsTrim content ≠ [] → (generatePreview content).length ≤ 100) := by
  have hmt : ((jsTrim content).take 100).map nlToSpace
      = ((jsTrim content).map nlToSpace).take 100 :=
    List.map_take nlToSpace (jsTrim content) 100
  have hempty : (((jsTrim content).take 100).map nlToSpace).isEmpty = true
      ↔ jsTrim content = [] := by
    rw [List.isEmpty_iff, List.map_eq_nil_iff]
    exact take_eq_nil_iff_of_pos _ (by norm_num)
  constructor
  · unfold generatePreview
    by_cases h : jsTrim content = []
    · simp [h]
    · rw [if_neg h, if_neg (by
        intro hc
        exact h (hempty.mp hc))]
      exact hmt
  · intro h
    unfold generatePreview
    rw [if_neg (by
      intro hc
      exact h (hempty.mp hc))]
    calc (((jsTrim content).take 100).map nlToSpace).length
        = ((jsTrim content).take 100).length := List.length_map _ _
      _ ≤ 100 := List.length_take_le _ _

/-! ## Snapshot history stacks

Two independent undo/redo stacks appear in the sources: the text history of
`src/scratchpadview.ts` (duplicate-suppressing, capped at 50 entries) and
the canvas history of the original view (no duplicate check, no cap).  The
snapshot value type is abstracted: the algorithms never inspect snapshots,
only compare them (text) or store them (canvas). -/

/-- State of the text undo/redo stack of `src/scratchpadview.ts`
(`textHistory` / `textIndex` fields). -/
structure TextHist (α : Type) where
  textHistory : List α
  textIndex : Int
deriving DecidableEq

/-- Initial text-history state (`textHistory = []`, `textIndex = -1`). -/
def initTextHist {α : Type} : TextHist α := ⟨[], -1⟩

/-- `MAX_TEXT_HISTORY_SIZE` from `src/scratchpadview.ts`. -/
def MAX_TEXT_HISTORY_SIZE : Nat := 50

/-- From `src/scratchpadview.ts`, `saveTextSnapshot`: commit the textarea
value unless it equals the entry at the cursor; truncate the redo branch,
append, and shift out the oldest entry past 50.  The JS guard
`textIndex < 0 || value !== textHistory[textIndex]` short-circuits, so the
array is never indexed at a negative position. -/
def saveTextSnapshot {α : Type} [DecidableEq α] (s : TextHist α) (value : α) : TextHist α :=
  if s.textIndex < 0 ∨ s.textHistory[s.textIndex.toNat]? ≠ some value then
    let h1 := if s.textIndex < (s.textHistory.length : Int) - 1
              then s.textHistory.take (s.textIndex + 1).toNat
              else s.textHistory
    let h2 := h1 ++ [value]
    if h2.length > MAX_TEXT_HISTORY_SIZE then
      ⟨h2.drop 1, ((h2.length : Int) - 1) - 1⟩
    else
      ⟨h2, (h2.length : Int) - 1⟩
  else s

/-- From `src/scratchpadview.ts`, `undoText`. -/
def undoText {α : Type} (s : TextHist α) : TextHist α :=
  if s.textIndex ≤ 0 then s else ⟨s.textHistory, s.textIndex - 1⟩

/-- From `src/scratchpadview.ts`, `redoText`. -/
def redoText {α : Type} (s : TextHist α) : TextHist α :=
  if s.textIndex ≥ (s.textHistory.length : Int) - 1 then s
  else ⟨s.textHistory, s.textIndex + 1⟩

/-- The textarea value rendered after undo/redo:
`textHistory[textIndex]`. -/
def observedText {α : Type} (s : TextHist α) : Option α :=
  if 0 ≤ s.textIndex then s.textHistory[s.textIndex.toNat]? else none

/-- Push a whole list of values, oldest first, starting from the empty
stack. -/
def pushAllText {α : Type} [DecidableEq α] (vs : List α) : TextHist α :=
  vs.foldl saveTextSnapshot initTextHist

/-- State of the canvas undo/redo stack of the original view
(`canvasHistory` / `canvasIndex` fields). -/
structure CanvasHist (α : Type) where
  canvasHistory : List α
  canvasIndex : Int
deriving DecidableEq

/-- Initial canvas-history state. -/
def initCanvasHist {α : Type} : CanvasHist α := ⟨[], -1⟩

/-- From the original view, `saveCanvasSnapshot`: truncate the redo branch
and append the captured snapshot.  Note: no duplicate suppression and no
capacity check of any kind. -/
def saveCanvasSnapshot {α : Type} (s : CanvasHist α) (snapshot : α) : CanvasHist α :=
  let h1 := if s.canvasIndex < (s.canvasHistory.length : Int) - 1
            then s.canvasHistory.take (s.canvasIndex + 1).toNat
            else s.canvasHistory
  let h2 := h1 ++ [snapshot]
  ⟨h2, (h2.length : Int) - 1⟩

/-- From the original view, `undoCanvas`: at cursor 0 (or below) the index
is reset to -1 and the surface re-rendered; the history array itself is
left untouched. -/
def undoCanvas {α : Type} (s : CanvasHist α) : CanvasHist α :=
  if s.canvasIndex ≤ 0 then ⟨s.canvasHistory, -1⟩
  else ⟨s.canvasHistory, s.canvasIndex - 1⟩

/-- From the original view, `redoCanvas`. -/
def redoCanvas {α : Type} (s : CanvasHist α) : CanvasHist α :=
  if s.canvasIndex ≥ (s.canvasHistory.length : Int) - 1 then s
  else ⟨s.canvasHistory, s.canvasIndex + 1⟩

/-- What `resizeCanvas` paints after an undo/redo: the snapshot at the
cursor when `canvasIndex >= 0`, otherwise a blank surface (`none`). -/
def renderCanvas {α : Type} (s : CanvasHist α) : Option α :=
  if 0 ≤ s.canvasIndex then s.canvasHistory[s.canvasIndex.toNat]? else none

/-- Push a whole list of canvas snapshots, oldest first, starting from the
empty stack. -/
def pushAllCanvas {α : Type} (vs : List α) : CanvasHist α :=
  vs.foldl saveCanvasSnapshot initCanvasHist

/-- C2 counterexample: push one snapshot (cursor 0), undo (cursor at the
oldest retained entry).  The claim says the history is cleared and no
entry is recoverable by redo; in fact the history array still holds the
snapshot and redo restores it to the surface. -/
theorem undoCanvas_bottom_cex :
    (undoCanvas (saveCanvasSnapshot (initCanvasHist (α := Nat)) 7)).canvasHistory ≠ [] ∧
    renderCanvas (redoCanvas (undoCanvas (saveCanvasSnapshot (initCanvasHist (α := Nat)) 7)))
      = some 7 := by
  decide

/-- C2 (amended): undo at cursor `<= 0` resets the cursor to -1 and blanks
the drawing surface, but it retains the history entries, and a subsequent
redo restores the oldest retained snapshot to the surface. -/
theorem undoCanvas_bottom_retains_history {α : Type} (s : CanvasHist α)
    (h : s.canvasIndex ≤ 0) :
    (undoCanvas s).canvasHistory = s.canvasHistory ∧
    (undoCanvas s).canvasIndex = -1 ∧
    renderCanvas (undoCanvas s) = none ∧
    (s.canvasHistory ≠ [] →
      redoCanvas (undoCanvas s) = ⟨s.canvasHistory, 0⟩ ∧
      renderCanvas (redoCanvas (undoCanvas s)) = s.canvasHistory[0]?) := by
  have hu : undoCanvas s = ⟨s.canvasHistory, -1⟩ := by
    unfold undoCanvas
    rw [if_pos h]
  refine ⟨by rw [hu], by rw [hu], by rw [hu]; rfl, ?_⟩
  intro hne
  have hlen : 1 ≤ s.canvasHistory.length := by
    cases hcl : s.canvasHistory with
    | nil => exact absurd hcl hne
    | cons a t => simp [hcl]
  have hr : redoCanvas (undoCanvas s) = ⟨s.canvasHistory, 0⟩ := by
    rw [hu]
    unfold redoCanvas
    dsimp only
    rw [if_neg (by omega)]
    norm_num
  refine ⟨hr, ?_⟩
  rw [hr]
  rfl

/-- C2 amended-claim witness at a concrete one-snapshot stack. -/
theorem undoCanvas_bottom_retains_history_witness :
    ((⟨[5], 0⟩ : CanvasHist Nat).canvasIndex ≤ 0) ∧
    renderCanvas (redoCanvas (undoCanvas (⟨[5], 0⟩ : CanvasHist Nat))) = some 5 := by
  refine ⟨by decide, ?_⟩
  have h := (undoCanvas_bottom_retains_history (⟨[5], 0⟩ : CanvasHist Nat)
    (by decide)).2.2.2 (by decide)
  exact h.2

theorem saveTextSnapshot_at_top {α : Type} [DecidableEq α] (s : TextHist α) (v : α)
    (hidx : s.textIndex = (s.textHistory.length : Int) - 1)
    (hne : s.textHistory[s.textIndex.toNat]? ≠ some v) :
    saveTextSnapshot s v =
      if s.textHistory.length + 1 > MAX_TEXT_HISTORY_SIZE then
        ⟨(s.textHistory ++ [v]).drop 1, (s.textHistory.length : Int) - 1⟩
      else ⟨s.textHistory ++ [v], (s.textHistory.length : Int)⟩ := by
  have h1eq : (if s.textIndex < (s.textHistory.length : Int) - 1
      then s.textHistory.take (s.textIndex + 1).toNat else s.textHistory)
      = s.textHistory := if_neg (by omega)
  simp only [saveTextSnapshot, if_pos (Or.inr hne), h1eq, List.length_append,
    List.length_singleton]
  by_cases hc : s.textHistory.length + 1 > MAX_TEXT_HISTORY_SIZE
  · simp only [if_pos hc]
    congr 1
    push_cast
    ring
  · simp only [if_neg hc]
    congr 1
    push_cast
    ring

theorem pushAllText_nodup_eq {α : Type} [DecidableEq α] (vs : List α) (hnd : vs.Nodup) :
    (pushAllText vs).textHistory = vs.drop (vs.length - MAX_TEXT_HISTORY_SIZE) ∧
    (pushAllText vs).textIndex = ((min vs.length MAX_TEXT_HISTORY_SIZE : Nat) : Int) - 1 := by
  induction vs using List.reverseRecOn with
  | nil => exact ⟨rfl, rfl⟩
  | append_singleton vs v ih =>
    rw [List.nodup_append] at hnd
    obtain ⟨hnd', -, hdisj⟩ := hnd
    have hv : v ∉ vs := fun hmem => hdisj hmem (List.mem_singleton_self v)
    obtain ⟨hh, hi⟩ := ih hnd'
    have hM : MAX_TEXT_HISTORY_SIZE = 50 := rfl
    have hstep : pushAllText (vs ++ [v]) = saveTextSnapshot (pushAllText vs) v :=
      List.foldl_concat _ _ _ _
    have hlen : (pushAllText vs).textHistory.length = min vs.length MAX_TEXT_HISTORY_SIZE := by
      rw [hh, List.length_drop]
      omega
    have hidx : (pushAllText vs).textIndex = ((pushAllText vs).textHistory.length : Int) - 1 := by
      rw [hi, hlen]
    have hne : (pushAllText vs).textHistory[(pushAllText vs).textIndex.toNat]? ≠ some v := by
      intro hcontra
      exact hv (List.drop_subset _ _ (hh ▸ List.getElem?_mem hcontra))
    rw [hstep, saveTextSnapshot_at_top _ v hidx hne]
    by_cases hc : (pushAllText vs).textHistory.length + 1 > MAX_TEXT_HISTORY_SIZE
    · rw [if_pos hc]
      have hn50 : MAX_TEXT_HISTORY_SIZE ≤ vs.length := by omega
      constructor
      · show ((pushAllText vs).textHistory ++ [v]).drop 1
          = (vs ++ [v]).drop ((vs ++ [v]).length - MAX_TEXT_HISTORY_SIZE)
        rw [hh]
        rw [List.drop_append_of_le_length (by rw [List.length_drop]; omega)]
        rw [List.drop_drop]
        rw [List.drop_append_of_le_length (by simp; omega)]
        have harith : (vs.length - MAX_TEXT_HISTORY_SIZE) + 1
            = (vs ++ [v]).length - MAX_TEXT_HISTORY_SIZE := by
          simp only [List.length_append, List.length_singleton]
          omega
        rw [harith]
      · show ((pushAllText vs).textHistory.length : Int) - 1
          = ((min (vs ++ [v]).length MAX_TEXT_HISTORY_SIZE : Nat) : Int) - 1
        rw [hlen]
        simp only [List.length_append, List.length_singleton]
        omega
    · rw [if_neg hc]
      constructor
      · show (pushAllText vs).textHistory ++ [v]
          = (vs ++ [v]).drop ((vs ++ [v]).length - MAX_TEXT_HISTORY_SIZE)
        rw [hh]
        have h0 : vs.length - MAX_TEXT_HISTORY_SIZE = 0 := by omega
        have h0' : (vs ++ [v]).length - MAX_TEXT_HISTORY_SIZE = 0 := by
          simp only [List.length_append, List.length_singleton]
          omega
        rw [h0, h0', List.drop_zero, List.drop_zero]
      · show ((pushAllText vs).textHistory.length : Int)
          = ((min (vs ++ [v]).length MAX_TEXT_HISTORY_SIZE : Nat) : Int) - 1
        rw [hlen]
        simp only [List.length_append, List.length_singleton]
        omega

theorem pushAllCanvas_eq {α : Type} (vs : List α) :
    (pushAllCanvas vs).canvasHistory = vs ∧
    (pushAllCanvas vs).canvasIndex = (vs.length : Int) - 1 := by
  induction vs using List.reverseRecOn with
  | nil => exact ⟨rfl, rfl⟩
  | append_singleton vs v ih =>
    obtain ⟨hh, hi⟩ := ih
    have hstep : pushAllCanvas (vs ++ [v]) = saveCanvasSnapshot (pushAllCanvas vs) v :=
      List.foldl_concat _ _ _ _
    rw [hstep]
    simp only [saveCanvasSnapshot]
    rw [if_neg (by rw [hi, hh]; omega)]
    rw [hh]
    exact ⟨rfl, rfl⟩

set_option maxRecDepth 4000 in
/-- C3 counterexample: the raster history has no capacity bound.  Pushing
21 distinct snapshots (capacity 20 plus one per the claim) retains all 21
entries, not 20: `saveCanvasSnapshot` contains no eviction at all. -/
theorem rasterCapacity_cex :
    (pushAllCanvas (List.range 21)).canvasHistory.length = 21 ∧
    ¬ (pushAllCanvas (List.range 21)).canvasHistory.length = 20 := by
  decide

/-- C3 (amended): the text history stack is bounded at 50 as the claim
states: after pushing `50 + k` pairwise-distinct values, exactly 50
entries are retained (the last 50 pushed), the `k` oldest pushed values
appear nowhere in the retained history (so undo cannot reach them), and
the cursor is a valid index.  The raster history stack, however, is not
bounded: every push grows it, so the whole pushed sequence is retained. -/
theorem historyCapacity_corrected {α : Type} [DecidableEq α] (vs : List α) (k : Nat)
    (hnd : vs.Nodup) (hlen : vs.length = MAX_TEXT_HISTORY_SIZE + k) (hk : 0 < k) :
    (pushAllText vs).textHistory = vs.drop k ∧
    (pushAllText vs).textHistory.length = MAX_TEXT_HISTORY_SIZE ∧
    (∀ v ∈ vs.take k, v ∉ (pushAllText vs).textHistory) ∧
    0 ≤ (pushAllText vs).textIndex ∧
    (pushAllText vs).textIndex < ((pushAllText vs).textHistory.length : Int) ∧
    (∀ ws : List α, (pushAllCanvas ws).canvasHistory = ws) := by
  obtain ⟨hh, hi⟩ := pushAllText_nodup_eq vs hnd
  have hM : MAX_TEXT_HISTORY_SIZE = 50 := rfl
  have hdk : vs.length - MAX_TEXT_HISTORY_SIZE = k := by omega
  have hh' : (pushAllText vs).textHistory = vs.drop k := by rw [hh, hdk]
  have hlen' : (pushAllText vs).textHistory.length = MAX_TEXT_HISTORY_SIZE := by
    rw [hh', List.length_drop]
    omega
  refine ⟨hh', hlen', ?_, ?_, ?_, fun ws => (pushAllCanvas_eq ws).1⟩
  · intro v hvtake hvhist
    rw [hh'] at hvhist
    have hsplit : vs.take k ++ vs.drop k = vs := List.take_append_drop k vs
    have hnd2 : (vs.take k ++ vs.drop k).Nodup := by rw [hsplit]; exact hnd
    rw [List.nodup_append] at hnd2
    exact hnd2.2.2 hvtake hvhist
  · rw [hi]; omega
  · rw [hi, hlen']; omega

/-- C3 amended-claim witness: 51 distinct pushes retain exactly the last
50. -/
theorem historyCapacity_corrected_witness :
    (List.range 51).Nodup ∧ (List.range 51).length = MAX_TEXT_HISTORY_SIZE + 1 ∧ 0 < 1 ∧
    (pushAllText (List.range 51)).textHistory = (List.range 51).drop 1 := by
  refine ⟨by decide, by decide, by decide, ?_⟩
  exact (historyCapacity_corrected (List.range 51) 1 (by decide) (by decide) (by decide)).1

theorem undoText_iter {α : Type} (s : TextHist α) (N : Nat) (h : (N : Int) ≤ s.textIndex) :
    undoText^[N] s = ⟨s.textHistory, s.textIndex - N⟩ := by
  induction N generalizing s with
  | zero => simp
  | succ n ihn =>
    rw [Function.iterate_succ_apply]
    have hu : undoText s = ⟨s.textHistory, s.textIndex - 1⟩ := by
      unfold undoText
      rw [if_neg (by push_cast at h; omega)]
    rw [hu, ihn _ (by dsimp only; push_cast at h ⊢; omega)]
    congr 1
    push_cast
    ring

theorem redoText_iter {α : Type} (s : TextHist α) (N : Nat)
    (h : s.textIndex + N ≤ (s.textHistory.length : Int) - 1) :
    redoText^[N] s = ⟨s.textHistory, s.textIndex + N⟩ := by
  induction N generalizing s with
  | zero => simp
  | succ n ihn =>
    rw [Function.iterate_succ_apply]
    have hr : redoText s = ⟨s.textHistory, s.textIndex + 1⟩ := by
      unfold redoText
      rw [if_neg (by push_cast at h; omega)]
    rw [hr, ihn _ (by dsimp only; push_cast at h ⊢; omega)]
    congr 1
    push_cast
    ring

theorem undoCanvas_iter {α : Type} (s : CanvasHist α) (N : Nat)
    (h : (N : Int) ≤ s.canvasIndex) :
    undoCanvas^[N] s = ⟨s.canvasHistory, s.canvasIndex - N⟩ := by
  induction N generalizing s with
  | zero => simp
  | succ n ihn =>
    rw [Function.iterate_succ_apply]
    have hu : undoCanvas s = ⟨s.canvasHistory, s.canvasIndex - 1⟩ := by
      unfold undoCanvas
      rw [if_neg (by push_cast at h; omega)]
    rw [hu, ihn _ (by dsimp only; push_cast at h ⊢; omega)]
    congr 1
    push_cast
    ring

theorem redoCanvas_iter {α : Type} (s : CanvasHist α) (N : Nat)
    (h : s.canvasIndex + N ≤ (s.canvasHistory.length : Int) - 1) :
    redoCanvas^[N] s = ⟨s.canvasHistory, s.canvasIndex + N⟩ := by
  induction N generalizing s with
  | zero => simp
  | succ n ihn =>
    rw [Function.iterate_succ_apply]
    have hr : redoCanvas s = ⟨s.canvasHistory, s.canvasIndex + 1⟩ := by
      unfold redoCanvas
      rw [if_neg (by push_cast at h; omega)]
    rw [hr, ihn _ (by dsimp only; push_cast at h ⊢; omega)]
    congr 1
    push_cast
    ring

theorem saveTextSnapshot_index_eq {α : Type} [DecidableEq α] (s : TextHist α) (v : α)
    (h : s.textIndex = (s.textHistory.length : Int) - 1) :
    (saveTextSnapshot s v).textIndex
      = ((saveTextSnapshot s v).textHistory.length : Int) - 1 := by
  by_cases hne : s.textHistory[s.textIndex.toNat]? ≠ some v
  · rw [saveTextSnapshot_at_top s v h hne]
    by_cases hc : s.textHistory.length + 1 > MAX_TEXT_HISTORY_SIZE
    · simp only [if_pos hc]
      rw [List.length_drop]
      simp only [List.length_append, List.length_singleton]
      have hM : MAX_TEXT_HISTORY_SIZE = 50 := rfl
      omega
    · simp only [if_neg hc]
      simp only [List.length_append, List.length_singleton]
      push_cast
      ring
  · push_neg at hne
    have hnneg : ¬ s.textIndex < 0 := by
      intro hneg
      have hlen0 : s.textHistory.length = 0 := by omega
      have hnil : s.textHistory = [] := List.length_eq_zero.mp hlen0
      rw [hnil] at hne
      simp at hne
    have hcondneg : ¬ (s.textIndex < 0 ∨ s.textHistory[s.textIndex.toNat]? ≠ some v) := by
      push_neg
      exact ⟨by omega, hne⟩
    unfold saveTextSnapshot
    rw [if_neg hcondneg]
    exact h

theorem pushAllText_index_eq {α : Type} [DecidableEq α] (vs : List α) :
    (pushAllText vs).textIndex = ((pushAllText vs).textHistory.length : Int) - 1 := by
  induction vs using List.reverseRecOn with
  | nil =>
    show (initTextHist : TextHist α).textIndex
      = (((initTextHist : TextHist α).textHistory.length : Nat) : Int) - 1
    norm_num [initTextHist]
  | append_singleton vs v ih =>
    have hstep : pushAllText (vs ++ [v]) = saveTextSnapshot (pushAllText vs) v :=
      List.foldl_concat _ _ _ _
    rw [hstep]
    exact saveTextSnapshot_index_eq _ v ih

/-- C9: starting from any sequence of pushes within capacity (50 for the
text surface, 20 for the raster surface), undoing N times and then
redoing N times, for any N within the available history, restores the
pre-undo stack exactly: same entries, same cursor, same value observed at
the cursor.  Holds for both the text stack and the canvas stack. -/
theorem undoRedo_roundtrip {α : Type} [DecidableEq α] (vsT vsC : List α) (NT NC : Nat)
    (hT : vsT.length ≤ MAX_TEXT_HISTORY_SIZE) (hC : vsC.length ≤ 20)
    (hNT : (NT : Int) ≤ (pushAllText vsT).textIndex)
    (hNC : (NC : Int) ≤ (pushAllCanvas vsC).canvasIndex) :
    redoText^[NT] (undoText^[NT] (pushAllText vsT)) = pushAllText vsT ∧
    observedText (redoText^[NT] (undoText^[NT] (pushAllText vsT)))
      = observedText (pushAllText vsT) ∧
    redoCanvas^[NC] (undoCanvas^[NC] (pushAllCanvas vsC)) = pushAllCanvas vsC := by
  have hiT := pushAllText_index_eq vsT
  have hfinT : redoText^[NT] (undoText^[NT] (pushAllText vsT)) = pushAllText vsT := by
    rw [undoText_iter _ _ hNT]
    rw [redoText_iter _ _ (by dsimp only; omega)]
    have harith : ((pushAllText vsT).textIndex - NT) + NT = (pushAllText vsT).textIndex := by
      ring
    rw [harith]
  have hiC : (pushAllCanvas vsC).canvasIndex
      = ((pushAllCanvas vsC).canvasHistory.length : Int) - 1 := by
    obtain ⟨hh, hi⟩ := pushAllCanvas_eq vsC
    rw [hi, hh]
  have hfinC : redoCanvas^[NC] (undoCanvas^[NC] (pushAllCanvas vsC)) = pushAllCanvas vsC := by
    rw [undoCanvas_iter _ _ hNC]
    rw [redoCanvas_iter _ _ (by dsimp only; omega)]
    have harith : ((pushAllCanvas vsC).canvasIndex - NC) + NC
        = (pushAllCanvas vsC).canvasIndex := by
      ring
    rw [harith]
  exact ⟨hfinT, by rw [hfinT], hfinC⟩

/-- C9 witness: three text pushes then undo and redo twice; two canvas
pushes then undo and redo once. -/
theorem undoRedo_roundtrip_witness :
    ([0, 1, 2] : List Nat).length ≤ MAX_TEXT_HISTORY_SIZE ∧
    ([4, 5] : List Nat).length ≤ 20 ∧
    ((2 : Nat) : Int) ≤ (pushAllText ([0, 1, 2] : List Nat)).textIndex ∧
    ((1 : Nat) : Int) ≤ (pushAllCanvas ([4, 5] : List Nat)).canvasIndex ∧
    redoText^[2] (undoText^[2] (pushAllText ([0, 1, 2] : List Nat)))
      = pushAllText ([0, 1, 2] : List Nat) := by
  refine ⟨by decide, by decide, by decide, by decide, ?_⟩
  exact (undoRedo_roundtrip [0, 1, 2] [4, 5] 2 1 (by decide) (by decide) (by decide)
    (by decide)).1

/-! ## Stash store

From `src/main.ts` of the enhanced variant.  `generateId()` and
`Date.now()` become the explicit parameters `newId` / `now`; the blob read
at the start of each method becomes the `data` parameter and the final
`vault.adapter.write` becomes the written data carried in the outcome. -/

/-- `StashNote` interface from `src/main.ts`. -/
structure StashNote where
  id : List Char
  createdAt : Nat
  updatedAt : Nat
  preview : List Char
  title : Option (List Char) := none
  content : List Char
deriving DecidableEq

/-- `ScratchpadData` interface from `src/main.ts`. -/
structure ScratchpadData where
  currentStash : Option StashNote := none
  stashes : List StashNote
deriving DecidableEq

/-- `ScratchpadSettings` interface from `src/main.ts`. -/
structure ScratchpadSettings where
  maxStashes : Nat
  autoEvictOldest : Bool
  maxNoteLength : Nat
  showWordCount : Bool
  showCharCount : Bool
  showLineCount : Bool
  autoStashOnFetch : Bool
deriving DecidableEq

/-- `DEFAULT_SETTINGS` from `src/main.ts`. -/
def DEFAULT_SETTINGS : ScratchpadSettings :=
  { maxStashes := 20, autoEvictOldest := true, maxNoteLength := 50000,
    showWordCount := true, showCharCount := true, showLineCount := true,
    autoStashOnFetch := true }

/-- The fresh-note literal used by `saveScratchpadContent`,
`createNewStash` and the legacy migration: id from `generateId()`,
`createdAt = updatedAt = Date.now()`, derived preview, given content, no
title. -/
def mkStashNote (newId : List Char) (now : Nat) (content : List Char) : StashNote :=
  { id := newId, createdAt := now, updatedAt := now,
    preview := generatePreview content, title := none, content := content }

/-- The two exceptions `createNewStash` can throw. -/
inductive StashError
  | noteTooLarge
  | stashLimitReached
deriving DecidableEq

/-- Result of `createNewStash`: `emptyNoStash` models the early
`return null` (nothing loaded or written), `failed` models a thrown error
(nothing written), `created` carries the blob written to disk and the
returned note. -/
inductive CreateOutcome
  | emptyNoStash
  | failed (e : StashError)
  | created (written : ScratchpadData) (note : StashNote)
deriving DecidableEq

/-- The blob written to disk by a `createNewStash` call, if any. -/
def CreateOutcome.writes : CreateOutcome → Option ScratchpadData
  | .created w _ => some w
  | _ => none

/-- From `src/main.ts`, `createNewStash(content)`: reject blank content
(`return null`), then over-long content (throw); demote a non-blank
current note into the list (dedup by id, then unshift), truncate the list
to `maxStashes` by `slice` when `autoEvictOldest` or throw otherwise;
finally install a fresh note as current and write. -/
def createNewStash (settings : ScratchpadSettings) (data : ScratchpadData)
    (content newId : List Char) (now : Nat) : CreateOutcome :=
  if jsTrim content = [] then .emptyNoStash
  else if content.length > settings.maxNoteLength then .failed .noteTooLarge
  else
    match data.currentStash with
    | some cur =>
      if jsTrim cur.content ≠ [] then
        let stashes1 := cur :: data.stashes.filter (fun s => s.id ≠ cur.id)
        if stashes1.length > settings.maxStashes then
          if settings.autoEvictOldest then
            .created { currentStash := some (mkStashNote newId now content),
                       stashes := stashes1.take settings.maxStashes }
              (mkStashNote newId now content)
          else .failed .stashLimitReached
        else
          .created { currentStash := some (mkStashNote newId now content),
                     stashes := stashes1 }
            (mkStashNote newId now content)
      else
        .created { currentStash := some (mkStashNote newId now content),
                   stashes := data.stashes }
          (mkStashNote newId now content)
    | none =>
      .created { currentStash := some (mkStashNote newId now content),
                 stashes := data.stashes }
        (mkStashNote newId now content)

/-- Result of `fetchStash`: `currentHit` models returning the current note
with no write, `promoted` carries the written blob and the returned note,
`notFound` models `return null` with no write. -/
inductive FetchOutcome
  | currentHit (note : StashNote)
  | promoted (written : ScratchpadData) (note : StashNote)
  | notFound
deriving DecidableEq

/-- The blob written to disk by a `fetchStash` call, if any. -/
def FetchOutcome.writes : FetchOutcome → Option ScratchpadData
  | .promoted w _ => some w
  | _ => none

/-- The list-search half of `fetchStash`: `stashes.find(...)`, promotion
with a refreshed `updatedAt`, removal from the list, write. -/
def fetchStashFromList (data : ScratchpadData) (stashId : List Char) (now : Nat) :
    FetchOutcome :=
  match data.stashes.find? (fun s => s.id = stashId) with
  | some st =>
    .promoted { currentStash := some { st with updatedAt := now },
                stashes := data.stashes.filter (fun s => s.id ≠ stashId) }
      { st with updatedAt := now }
  | none => .notFound

/-- From `src/main.ts`, `fetchStash(stashId)`: return the current note
unchanged on an id match, otherwise search the list. -/
def fetchStash (data : ScratchpadData) (stashId : List Char) (now : Nat) : FetchOutcome :=
  match data.currentStash with
  | some cur =>
    if cur.id = stashId then .currentHit cur
    else fetchStashFromList data stashId now
  | none => fetchStashFromList data stashId now

/-- The deserialization boundary of `loadScratchpadContent`: a stored blob
is absent (`Option.none` outside), unparseable (`malformed`), in the
legacy shape (`parsed.text !== undefined`, carrying its `text` and
`canvas` fields), or already in the current shape. -/
inductive PersistedBlob
  | malformed
  | legacy (text canvas : List Char)
  | currentShape (d : ScratchpadData)
deriving DecidableEq

/-- Result of `loadScratchpadContent`: the returned store and the blob
written back to disk during load, if any. -/
structure LoadResult where
  returned : ScratchpadData
  writtenBack : Option ScratchpadData
deriving DecidableEq

/-- From `src/main.ts`, `loadScratchpadContent()`: no file or a parse
failure yields the empty store `{ stashes: [] }` with no write; a legacy
blob is migrated (its text becomes a fresh current note, empty list) and
the migrated form is written back immediately; a current-shape blob is
returned as is. -/
def loadScratchpadContent (blob : Option PersistedBlob) (newId : List Char) (now : Nat) :
    LoadResult :=
  match blob with
  | none => ⟨⟨none, []⟩, none⟩
  | some .malformed => ⟨⟨none, []⟩, none⟩
  | some (.legacy text _canvas) =>
    ⟨⟨some (mkStashNote newId now text), []⟩,
     some ⟨some (mkStashNote newId now text), []⟩⟩
  | some (.currentShape d) => ⟨d, none⟩

/-- The sort in `getStashes`: `[...data.stashes].sort((a, b) =>
b.updatedAt - a.updatedAt)`, a stable sort by `updatedAt` descending. -/
def sortByUpdatedAtDesc (stashes : List StashNote) : List StashNote :=
  stashes.mergeSort (fun a b => b.updatedAt ≤ a.updatedAt)

/-- From `src/main.ts`, `getStashes(limit, offset)`: sort a copy by
`updatedAt` descending and return `slice(offset, offset + limit)`.  A pure
read: no write occurs and the store is untouched. -/
def getStashes (data : ScratchpadData) (limit offset : Nat) : List StashNote :=
  ((sortByUpdatedAtDesc data.stashes).drop offset).take limit

/-- From `src/main.ts`, `saveScratchpadContent(text)`: create a fresh
current note when none exists, otherwise update only the `content`,
`updatedAt` and `preview` fields of the current note; then write.  The result is the blob
written to disk. -/
def saveScratchpadContent (data : ScratchpadData) (text newId : List Char) (now : Nat) :
    ScratchpadData :=
  match data.currentStash with
  | none => { currentStash := some (mkStashNote newId now text), stashes := data.stashes }
  | some cur =>
    { currentStash := some { cur with
        content := text
        updatedAt := now
        preview := generatePreview text },
      stashes := data.stashes }

/-- C6: `createNewStash` on blank (whitespace-only) content takes the
empty-content exit (`return null`): the outcome is `emptyNoStash` and no
blob is written, so `currentStash` and `stashes` on disk are untouched. -/
theorem createNewStash_empty (settings : ScratchpadSettings) (data : ScratchpadData)
    (content newId : List Char) (now : Nat) (h : jsTrim content = []) :
    createNewStash settings data content newId now = .emptyNoStash ∧
    (createNewStash settings data content newId now).writes = none := by
  have heq : createNewStash settings data content newId now = .emptyNoStash := by
    unfold createNewStash
    rw [if_pos h]
  exact ⟨heq, by rw [heq]; rfl⟩

/-- C6 witness: both the empty string and a blank string of three spaces
trim to empty and take the empty-content exit. -/
theorem createNewStash_empty_witness :
    jsTrim "".data = [] ∧ jsTrim "   ".data = [] ∧
    createNewStash DEFAULT_SETTINGS ⟨none, []⟩ "".data "id1".data 1 = .emptyNoStash ∧
    createNewStash DEFAULT_SETTINGS ⟨none, []⟩ "   ".data "id1".data 1 = .emptyNoStash := by
  refine ⟨by decide, by decide, ?_, ?_⟩
  · exact (createNewStash_empty DEFAULT_SETTINGS ⟨none, []⟩ "".data "id1".data 1
      (by decide)).1
  · exact (createNewStash_empty DEFAULT_SETTINGS ⟨none, []⟩ "   ".data "id1".data 1
      (by decide)).1

/-- C7: a legacy blob (bare `text` field) is migrated on load: the legacy
text becomes the content of a freshly ID-assigned current note with an
empty stash list, the migrated form is written back in the same load, and
a reload of the written-back (current-shape) blob performs no further
write, so migration runs at most once per store; a malformed or absent
blob yields the empty store with no write and no failure. -/
theorem loadScratchpadContent_migration (text canvas newId : List Char) (now : Nat)
    (newId' : List Char) (now' : Nat) :
    loadScratchpadContent (some (.legacy text canvas)) newId now
      = ⟨⟨some (mkStashNote newId now text), []⟩,
         some ⟨some (mkStashNote newId now text), []⟩⟩ ∧
    (mkStashNote newId now text).content = text ∧
    (mkStashNote newId now text).id = newId ∧
    (mkStashNote newId now text).preview = generatePreview text ∧
    loadScratchpadContent
        (some (.currentShape ⟨some (mkStashNote newId now text), []⟩)) newId' now'
      = ⟨⟨some (mkStashNote newId now text), []⟩, none⟩ ∧
    loadScratchpadContent (some .malformed) newId' now' = ⟨⟨none, []⟩, none⟩ ∧
    loadScratchpadContent none newId' now' = ⟨⟨none, []⟩, none⟩ :=
  ⟨rfl, rfl, rfl, rfl, rfl, rfl, rfl⟩

/-- C10: `saveScratchpadContent` never touches the stash list; it creates
a fresh current note (new id, `createdAt = updatedAt = now`) when none
exists, and otherwise rewrites only the `content`, `updatedAt` and
`preview` of the current note, preserving `id`, `createdAt` and `title`. -/
theorem saveScratchpadContent_frame (data : ScratchpadData) (text newId : List Char)
    (now : Nat) :
    (saveScratchpadContent data text newId now).stashes = data.stashes ∧
    (saveScratchpadContent data text newId now).currentStash
      = some (data.currentStash.elim (mkStashNote newId now text)
          (fun cur => { cur with
            content := text
            updatedAt := now
            preview := generatePreview text })) ∧
    (∀ cur, data.currentStash = some cur →
      (saveScratchpadContent data text newId now).currentStash.map StashNote.id
          = some cur.id ∧
      (saveScratchpadContent data text newId now).currentStash.map StashNote.createdAt
          = some cur.createdAt ∧
      (saveScratchpadContent data text newId now).currentStash.map StashNote.title
          = some cur.title) := by
  cases hcur : data.currentStash with
  | none =>
    refine ⟨?_, ?_, ?_⟩
    · unfold saveScratchpadContent
      rw [hcur]
    · unfold saveScratchpadContent
      rw [hcur]
      rfl
    · intro cur hc
      exact absurd hc (by simp)
  | some cur =>
    have hs : saveScratchpadContent data text newId now
        = { currentStash := some { cur with
              content := text
              updatedAt := now
              preview := generatePreview text },
            stashes := data.stashes } := by
      unfold saveScratchpadContent
      rw [hcur]
    refine ⟨by rw [hs], by rw [hs]; rfl, ?_⟩
    intro cur' hc
    injection hc with hc2
    subst hc2
    exact ⟨by rw [hs]; rfl, by rw [hs]; rfl, by rw [hs]; rfl⟩

/-- C10 witness: saving over an existing current note preserves its id and
the stash list at a concrete store. -/
theorem saveScratchpadContent_frame_witness :
    (⟨some (mkStashNote "x".data 1 "old".data),
        [mkStashNote "y".data 2 "s".data]⟩ : ScratchpadData).currentStash
      = some (mkStashNote "x".data 1 "old".data) ∧
    (saveScratchpadContent
        ⟨some (mkStashNote "x".data 1 "old".data), [mkStashNote "y".data 2 "s".data]⟩
        "new".data "z".data 9).currentStash.map StashNote.id = some "x".data ∧
    (saveScratchpadContent
        ⟨some (mkStashNote "x".data 1 "old".data), [mkStashNote "y".data 2 "s".data]⟩
        "new".data "z".data 9).stashes = [mkStashNote "y".data 2 "s".data] := by
  have h := saveScratchpadContent_frame
    ⟨some (mkStashNote "x".data 1 "old".data), [mkStashNote "y".data 2 "s".data]⟩
    "new".data "z".data 9
  refine ⟨rfl, ?_, h.1⟩
  exact (h.2.2 (mkStashNote "x".data 1 "old".data) rfl).1

/-- C5: `fetchStash(id)` returns the current note unchanged with no write
when the id matches it; when the id is found in the list, the found note
is removed from the list, its `updatedAt` is refreshed to now, and it is
installed as the new current note in the written blob (the previously
current note appears nowhere in it); when the id is found nowhere the
result is null and nothing is written, leaving the store unchanged. -/
theorem fetchStash_correct (data : ScratchpadData) (stashId : List Char) (now : Nat) :
    (∀ cur, data.currentStash = some cur → cur.id = stashId →
      fetchStash data stashId now = .currentHit cur ∧
      (fetchStash data stashId now).writes = none) ∧
    ((∀ cur, data.currentStash = some cur → cur.id ≠ stashId) →
      ∀ st, data.stashes.find? (fun s => s.id = stashId) = some st →
        fetchStash data stashId now
          = .promoted { currentStash := some { st with updatedAt := now },
                        stashes := data.stashes.filter (fun s => s.id ≠ stashId) }
              { st with updatedAt := now }) ∧
    ((∀ cur, data.currentStash = some cur → cur.id ≠ stashId) →
      data.stashes.find? (fun s => s.id = stashId) = none →
      fetchStash data stashId now = .notFound ∧
      (fetchStash data stashId now).writes = none) := by
  refine ⟨?_, ?_, ?_⟩
  · intro cur hcur hid
    have heq : fetchStash data stashId now = .currentHit cur := by
      unfold fetchStash
      rw [hcur]
      dsimp only
      rw [if_pos hid]
    exact ⟨heq, by rw [heq]; rfl⟩
  · intro hmiss st hfind
    have hlist : fetchStashFromList data stashId now
        = .promoted { currentStash := some { st with updatedAt := now },
                      stashes := data.stashes.filter (fun s => s.id ≠ stashId) }
            { st with updatedAt := now } := by
      unfold fetchStashFromList
      rw [hfind]
    cases hcur : data.currentStash with
    | none =>
      unfold fetchStash
      rw [hcur]
      exact hlist
    | some cur =>
      unfold fetchStash
      rw [hcur]
      dsimp only
      rw [if_neg (hmiss cur hcur)]
      exact hlist
  · intro hmiss hfind
    have hlist : fetchStashFromList data stashId now = .notFound := by
      unfold fetchStashFromList
      rw [hfind]
    have heq : fetchStash data stashId now = .notFound := by
      cases hcur : data.currentStash with
      | none =>
        unfold fetchStash
        rw [hcur]
        exact hlist
      | some cur =>
        unfold fetchStash
        rw [hcur]
        dsimp only
        rw [if_neg (hmiss cur hcur)]
        exact hlist
    exact ⟨heq, by rw [heq]; rfl⟩

/-- C5 witness: fetching a listed note promotes it (with refreshed
`updatedAt`), removes it from the list, and drops the previously current
note from the written blob. -/
theorem fetchStash_correct_witness :
    fetchStash ⟨some (mkStashNote "c".data 1 "C".data), [mkStashNote "a".data 2 "A".data]⟩
        "a".data 9
      = .promoted ⟨some { mkStashNote "a".data 2 "A".data with updatedAt := 9 }, []⟩
          { mkStashNote "a".data 2 "A".data with updatedAt := 9 } := by
  have h := (fetchStash_correct
    ⟨some (mkStashNote "c".data 1 "C".data), [mkStashNote "a".data 2 "A".data]⟩
    "a".data 9).2.1
    (by
      intro cur hc
      injection hc with h2
      subst h2
      decide)
    (mkStashNote "a".data 2 "A".data) (by decide)
  exact h.trans (by decide)

/-- C4: when content is valid and a non-blank current note exists,
`createNewStash` first removes any list entry sharing the id of the current note
and prepends the current note (most-recently-demoted first); if the
resulting list exceeds `maxStashes` it is truncated to the newest
`maxStashes` entries when `autoEvictOldest` is set, and otherwise the call
fails with the stash-limit error and nothing is written — in particular
the limit check happens before the fresh note is installed as current. -/
theorem createNewStash_demotes (settings : ScratchpadSettings) (data : ScratchpadData)
    (content newId : List Char) (now : Nat) (cur : StashNote)
    (hcontent : jsTrim content ≠ [])
    (hlen : content.length ≤ settings.maxNoteLength)
    (hcur : data.currentStash = some cur)
    (hblank : jsTrim cur.content ≠ []) :
    ((cur :: data.stashes.filter (fun s => s.id ≠ cur.id)).length ≤ settings.maxStashes →
      createNewStash settings data content newId now
        = .created { currentStash := some (mkStashNote newId now content),
                     stashes := cur :: data.stashes.filter (fun s => s.id ≠ cur.id) }
            (mkStashNote newId now content)) ∧
    ((cur :: data.stashes.filter (fun s => s.id ≠ cur.id)).length > settings.maxStashes →
      settings.autoEvictOldest = true →
      createNewStash settings data content newId now
        = .created { currentStash := some (mkStashNote newId now content),
                     stashes := (cur :: data.stashes.filter
                       (fun s => s.id ≠ cur.id)).take settings.maxStashes }
            (mkStashNote newId now content)) ∧
    ((cur :: data.stashes.filter (fun s => s.id ≠ cur.id)).length > settings.maxStashes →
      settings.autoEvictOldest = false →
      createNewStash settings data content newId now = .failed .stashLimitReached ∧
      (createNewStash settings data content newId now).writes = none) := by
  have hbase : createNewStash settings data content newId now
      = (if (cur :: data.stashes.filter (fun s => s.id ≠ cur.id)).length
            > settings.maxStashes then
           if settings.autoEvictOldest then
             CreateOutcome.created
               { currentStash := some (mkStashNote newId now content),
                 stashes := (cur :: data.stashes.filter
                   (fun s => s.id ≠ cur.id)).take settings.maxStashes }
               (mkStashNote newId now content)
           else .failed .stashLimitReached
         else
           CreateOutcome.created
             { currentStash := some (mkStashNote newId now content),
               stashes := cur :: data.stashes.filter (fun s => s.id ≠ cur.id) }
             (mkStashNote newId now content)) := by
    unfold createNewStash
    rw [if_neg hcontent, if_neg (by omega), hcur]
    dsimp only
    rw [if_pos hblank]
  refine ⟨?_, ?_, ?_⟩
  · intro hle
    rw [hbase, if_neg (by omega)]
  · intro hgt hev
    rw [hbase, if_pos hgt, if_pos hev]
  · intro hgt hev
    have heq : createNewStash settings data content newId now = .failed .stashLimitReached := by
      rw [hbase, if_pos hgt, hev]
      rfl
    exact ⟨heq, by rw [heq]; rfl⟩

/-- Settings with `maxStashes = 2` and `autoEvictOldest = true`, for the
demotion scenario of the specification. -/
def evictSettings : ScratchpadSettings :=
  { maxStashes := 2, autoEvictOldest := true, maxNoteLength := 50000,
    showWordCount := true, showCharCount := true, showLineCount := true,
    autoStashOnFetch := true }

/-- C4 witness: with `maxStashes = 2` and eviction on, demoting A then B
then C leaves the list at `[B, A]` — at most 2 entries, most recently
demoted first — while C becomes current. -/
theorem createNewStash_demotes_witness :
    jsTrim "C".data ≠ [] ∧
    createNewStash evictSettings ⟨none, []⟩ "A".data "ia".data 1
      = .created ⟨some (mkStashNote "ia".data 1 "A".data), []⟩
          (mkStashNote "ia".data 1 "A".data) ∧
    createNewStash evictSettings ⟨some (mkStashNote "ia".data 1 "A".data), []⟩
        "B".data "ib".data 2
      = .created ⟨some (mkStashNote "ib".data 2 "B".data), [mkStashNote "ia".data 1 "A".data]⟩
          (mkStashNote "ib".data 2 "B".data) ∧
    createNewStash evictSettings
        ⟨some (mkStashNote "ib".data 2 "B".data), [mkStashNote "ia".data 1 "A".data]⟩
        "C".data "ic".data 3
      = .created ⟨some (mkStashNote "ic".data 3 "C".data),
                  [mkStashNote "ib".data 2 "B".data, mkStashNote "ia".data 1 "A".data]⟩
          (mkStashNote "ic".data 3 "C".data) ∧
    [mkStashNote "ib".data 2 "B".data, mkStashNote "ia".data 1 "A".data].length ≤ 2 := by
  refine ⟨by decide, by decide, by decide, ?_, by decide⟩
  have h := (createNewStash_demotes evictSettings
    ⟨some (mkStashNote "ib".data 2 "B".data), [mkStashNote "ia".data 1 "A".data]⟩
    "C".data "ic".data 3 (mkStashNote "ib".data 2 "B".data)
    (by decide) (by decide) rfl (by decide)).1 (by decide)
  exact h.trans (by decide)

/-- C8: `getStashes(limit, offset)` is a pure function of the store that
returns exactly the page `[offset, offset + limit)` of the stash list
sorted by `updatedAt` descending; the sorted list is a permutation of the
stored list (the store itself is not mutated), it is pairwise sorted
descending, and two consecutive pages concatenate to one double-length
page — no overlap and no gap. -/
theorem getStashes_paging (data : ScratchpadData) (limit offset : Nat) :
    getStashes data limit offset
      = ((sortByUpdatedAtDesc data.stashes).drop offset).take limit ∧
    List.Pairwise (fun a b : StashNote => b.updatedAt ≤ a.updatedAt)
      (sortByUpdatedAtDesc data.stashes) ∧
    (sortByUpdatedAtDesc data.stashes).Perm data.stashes ∧
    getStashes data limit offset ++ getStashes data limit (offset + limit)
      = ((sortByUpdatedAtDesc data.stashes).drop offset).take (limit + limit) := by
  refine ⟨rfl, ?_, ?_, ?_⟩
  · have hsorted := @List.sorted_mergeSort StashNote
      (fun a b => decide (b.updatedAt ≤ a.updatedAt))
      (by
        intro a b c hab hbc
        simp only [decide_eq_true_eq] at hab hbc ⊢
        omega)
      (by
        intro a b
        simp only [Bool.or_eq_true, decide_eq_true_eq]
        omega)
      data.stashes
    exact hsorted.imp (by
      intro a b hab
      simpa using hab)
  · exact List.mergeSort_perm data.stashes _
  · unfold getStashes
    rw [← List.drop_drop]
    exact (List.take_add _ _ _).symm

/-- C1 witness: a concrete two-line content is trimmed, newline-collapsed
and returned. -/
theorem generatePreview_correct_witness :
    jsTrim "a\nb".data ≠ [] ∧ generatePreview "a\nb".data = "a b".data := by
  refine ⟨by decide, ?_⟩
  have h := (generatePreview_correct "a\nb".data).1
  exact h.trans (by decide)
